import Mathlib

/-!
Verification of the scheduling and reconciliation core of a daily
reading-challenge bot (source files: db.py, jobs.py, middleware.py,
handlers/poll.py, handlers/admin.py).

The SQLite tables are embedded as Lean lists of row structures, and each
database method becomes a pure state-passing function on a `DB` value.
Conventions of the embedding:
  - SQLite TEXT columns are `String`, INTEGER columns are `Int` or `Nat`,
    nullable columns are `Option`.
  - ISO dates are kept as strings; SQLite compares TEXT with memcmp, which
    on ASCII dates coincides with the `String` linear order used here.
  - `datetime(now)` timestamps are abstract `Nat` ticks passed in by the
    caller.
  - AUTOINCREMENT primary keys are modelled by `next_participant_id` and
    `next_poll_id` counters carried in the state; `lastrowid` is the value
    of the counter at insertion time.
  - SQLite NOCASE collation folds only ASCII letters A-Z, which is exactly
    what `Char.toLower` does.
  - The REAL completion_rate column only ever holds a value rounded to
    two decimal places, so it is modelled exactly as integer hundredths
    (completion_rate_x100).  The source computes `round(rate, 2)` on an
    IEEE double; the claims at issue are insensitive to that difference,
    and the rounding itself (round-half-to-even) is modelled exactly.
  - String comparison (ORDER BY, BETWEEN) is lexicographic on code
    points, which coincides with the memcmp order SQLite uses on UTF-8
    text.
  - Python falsiness tests on columns are modelled literally: `not uid`
    is true for NULL and for 0, `not tg_poll_id` is true for NULL and for
    the empty string.
-/

/-- Rows of the groups table (db.py schema). The added_at column is not
read by any operation under verification and is omitted. -/
structure GroupRow where
  group_id : Int
  title : String
  active : Bool
deriving DecidableEq

/-- Rows of the settings table (db.py schema lines 30-36).  The
reminder_time field is Modelled from the spec: the settings column for the
optional per-group reminder time-of-day is referenced by
handlers/admin.py (cmd_set_reminder_time) but the column itself and the
Database.set_reminder_time method are missing from the given db.py. -/
structure SettingsRow where
  group_id : Int
  poll_time : String
  reminder_time : Option String
  timezone : String
  challenge_active : Bool
deriving DecidableEq

/-- Rows of the participants table (db.py schema). -/
structure ParticipantRow where
  id : Nat
  group_id : Int
  user_id : Option Int
  username : Option String
  display_name : String
  active : Bool
  pending : Bool
deriving DecidableEq

/-- Rows of the polls table (db.py schema). posted_at is never read back
and is omitted. -/
structure PollRow where
  id : Nat
  group_id : Int
  poll_date : String
  tg_poll_id : Option String
  message_id : Option Nat
deriving DecidableEq

/-- Rows of the votes table (db.py schema). -/
structure VoteRow where
  poll_id : Nat
  user_id : Int
  option_idx : Option Nat
  voted_at : Nat
  updated_at : Nat
deriving DecidableEq

/-- Rows of the daily_results table (db.py schema). -/
structure DailyResultRow where
  group_id : Int
  participant_id : Nat
  result_date : String
  status : String
deriving DecidableEq

/-- Rows of the weekly_results table (db.py schema). -/
structure WeeklyResultRow where
  group_id : Int
  participant_id : Nat
  week_start : String
  total_yes : Nat
  total_no : Nat
  total_missed : Nat
  completion_rate_x100 : Nat
  rank_pos : Nat
deriving DecidableEq

/-- The whole SQLite database state. -/
structure DB where
  groups : List GroupRow
  settings : List SettingsRow
  participants : List ParticipantRow
  polls : List PollRow
  votes : List VoteRow
  daily_results : List DailyResultRow
  weekly_results : List WeeklyResultRow
  next_participant_id : Nat
  next_poll_id : Nat
deriving DecidableEq

/-- ASCII lowercase folding, as done by sqlite lower() and NOCASE on
ASCII text. -/
def asciiLower (s : String) : String :=
  String.mk (s.data.map Char.toLower)

/-- Lexicographic order on code points, the order SQLite BINARY memcmp
induces on UTF-8 text. -/
def charListLe : List Char → List Char → Bool
  | [], _ => true
  | _ :: _, [] => false
  | a :: as, b :: bs =>
      if a.toNat < b.toNat then true
      else if b.toNat < a.toNat then false
      else charListLe as bs

/-- String comparison used for ORDER BY keys and BETWEEN bounds. -/
def strLe (a b : String) : Bool :=
  charListLe a.data b.data

/-- SQL predicate lower(username) = lower(?): NULL usernames never
match. -/
def usernameMatches (p : ParticipantRow) (u : String) : Bool :=
  match p.username with
  | some v => asciiLower v == asciiLower u
  | none => false

/-- Database.get_or_create_group: INSERT OR IGNORE a groups row, then
INSERT OR IGNORE a default settings row for the group. -/
def get_or_create_group (db : DB) (group_id : Int) (title : String) : DB :=
  let db1 :=
    if db.groups.any (fun g => g.group_id == group_id) then db
    else { db with groups := db.groups ++ [⟨group_id, title, true⟩] }
  if db1.settings.any (fun s => s.group_id == group_id) then db1
  else { db1 with settings := db1.settings ++
          [⟨group_id, "20:00", none, "Asia/Almaty", false⟩] }

/-- Database.set_poll_time: UPDATE settings SET poll_time WHERE group_id
matches. -/
def set_poll_time (db : DB) (group_id : Int) (poll_time : String) : DB :=
  { db with settings := db.settings.map (fun s =>
      if s.group_id == group_id then { s with poll_time := poll_time } else s) }

/-- Modelled from the spec: Database.set_reminder_time, the admin-facing
write of the optional reminder time-of-day into the per-group Settings
record.  The method is called by handlers/admin.py cmd_set_reminder_time
but is missing from the given db.py; following the spec it persists the
value into the Settings row of the group. -/
def set_reminder_time (db : DB) (group_id : Int) (reminder_time : String) : DB :=
  { db with settings := db.settings.map (fun s =>
      if s.group_id == group_id then { s with reminder_time := some reminder_time } else s) }

/-- Database.get_participant_by_username: fetchone with a case-insensitive
username match, scoped to the group.  fetchone returns the first row in
table order. -/
def get_participant_by_username (db : DB) (group_id : Int) (username : String) :
    Option ParticipantRow :=
  db.participants.find? (fun p => p.group_id == group_id && usernameMatches p username)

/-- Database.add_pending_participant: reactivate an existing row with that
username, else insert a fresh active pending row keyed by username only.
Returns (participant id, new state). -/
def add_pending_participant (db : DB) (group_id : Int) (username : String) :
    Nat × DB :=
  match get_participant_by_username db group_id username with
  | some existing =>
      (existing.id,
       { db with participants := db.participants.map (fun p =>
           if p.id == existing.id then { p with active := true } else p) })
  | none =>
      (db.next_participant_id,
       { db with
           participants := db.participants ++
             [⟨db.next_participant_id, group_id, none, some username, username, true, true⟩],
           next_participant_id := db.next_participant_id + 1 })

/-- Database.resolve_pending_by_username: find the first pending row of
the group with a case-insensitively matching username and NULL user_id,
bind the identity and display name to it and clear pending.  Returns
whether a resolution occurred, with the new state. -/
def resolve_pending_by_username (db : DB) (group_id : Int) (username : String)
    (user_id : Int) (display_name : String) : Bool × DB :=
  match db.participants.find? (fun p =>
      p.group_id == group_id && usernameMatches p username &&
      p.user_id == none && p.pending) with
  | some row =>
      (true,
       { db with participants := db.participants.map (fun p =>
           if p.id == row.id then
             { p with user_id := some user_id, display_name := display_name,
                      pending := false }
           else p) })
  | none => (false, db)

/-- Relation used by ORDER BY display_name COLLATE NOCASE. -/
def participantNameLe (a b : ParticipantRow) : Prop :=
  strLe (asciiLower a.display_name) (asciiLower b.display_name) = true

instance : DecidableRel participantNameLe := fun a b =>
  inferInstanceAs
    (Decidable (strLe (asciiLower a.display_name) (asciiLower b.display_name) = true))

/-- Database.get_active_participants: active rows of the group ordered by
display_name COLLATE NOCASE. -/
def get_active_participants (db : DB) (group_id : Int) : List ParticipantRow :=
  List.insertionSort participantNameLe
    (db.participants.filter (fun p => p.group_id == group_id && p.active))

/-- The UNIQUE(group_id, poll_date) key of the polls table. -/
def poll_key (group_id : Int) (poll_date : String) (p : PollRow) : Bool :=
  p.group_id == group_id && p.poll_date == poll_date

/-- The UNIQUE(poll_id, user_id) key of the votes table. -/
def vote_key (poll_id : Nat) (user_id : Int) (v : VoteRow) : Bool :=
  v.poll_id == poll_id && v.user_id == user_id

/-- The UNIQUE(group_id, participant_id, result_date) key of the
daily_results table. -/
def daily_key (group_id : Int) (participant_id : Nat) (result_date : String)
    (r : DailyResultRow) : Bool :=
  r.group_id == group_id && r.participant_id == participant_id &&
    r.result_date == result_date

/-- The UNIQUE(group_id, participant_id, week_start) key of the
weekly_results table. -/
def weekly_key (group_id : Int) (participant_id : Nat) (week_start : String)
    (r : WeeklyResultRow) : Bool :=
  r.group_id == group_id && r.participant_id == participant_id &&
    r.week_start == week_start

/-- Database.try_create_poll_slot: INSERT the daily poll slot, catching
sqlite3.IntegrityError.  The insert fails (returning None) if the
UNIQUE(group_id, poll_date) constraint is violated or if the group_id
foreign key does not exist; on success it returns the fresh rowid. -/
def try_create_poll_slot (db : DB) (group_id : Int) (poll_date : String) :
    Option Nat × DB :=
  if db.polls.any (poll_key group_id poll_date) then
    (none, db)
  else if !(db.groups.any (fun g => g.group_id == group_id)) then
    (none, db)
  else
    (some db.next_poll_id,
     { db with
         polls := db.polls ++ [⟨db.next_poll_id, group_id, poll_date, none, none⟩],
         next_poll_id := db.next_poll_id + 1 })

/-- Database.update_poll_telegram_ids: attach the external poll and
message handles to the reserved slot. -/
def update_poll_telegram_ids (db : DB) (group_id : Int) (poll_date : String)
    (tg_poll_id : String) (message_id : Nat) : DB :=
  { db with polls := db.polls.map (fun p =>
      if poll_key group_id poll_date p then
        { p with tg_poll_id := some tg_poll_id, message_id := some message_id }
      else p) }

/-- Database.get_poll_by_date. -/
def get_poll_by_date (db : DB) (group_id : Int) (poll_date : String) :
    Option PollRow :=
  db.polls.find? (poll_key group_id poll_date)

/-- Database.get_poll_by_tg_id. -/
def get_poll_by_tg_id (db : DB) (tg_poll_id : String) : Option PollRow :=
  db.polls.find? (fun p => p.tg_poll_id == some tg_poll_id)

/-- jobs.post_daily_poll: reserve the slot first; on None (already posted)
skip publishing entirely.  On success, ask the transport to publish; the
transport argument is some (poll handle, message handle) on success and
none on a TelegramAPIError, in which case the slot is deliberately left
reserved and unpublished.  The returned Bool records whether a ballot was
published. -/
def post_daily_poll (db : DB) (group_id : Int) (today : String)
    (transport : Option (String × Nat)) : DB × Bool :=
  match try_create_poll_slot db group_id today with
  | (none, db1) => (db1, false)
  | (some _, db1) =>
      match transport with
      | none => (db1, false)
      | some (tg, mid) => (update_poll_telegram_ids db1 group_id today tg mid, true)

/-- Database.upsert_vote: INSERT a votes row, ON CONFLICT(poll_id,
user_id) update only option_idx and updated_at. -/
def upsert_vote (db : DB) (poll_id : Nat) (user_id : Int)
    (option_idx : Option Nat) (now : Nat) : DB :=
  if db.votes.any (vote_key poll_id user_id) then
    { db with votes := db.votes.map (fun v =>
        if vote_key poll_id user_id v then
          { v with option_idx := option_idx, updated_at := now }
        else v) }
  else
    { db with votes := db.votes ++ [⟨poll_id, user_id, option_idx, now, now⟩] }

/-- Database.get_vote. -/
def get_vote (db : DB) (poll_id : Nat) (user_id : Int) : Option VoteRow :=
  db.votes.find? (vote_key poll_id user_id)

/-- handlers/poll.on_poll_answer: correlate the Telegram poll id to a
polls row (ignore silently if absent), decode option_ids (empty list is a
retraction, else first element), upsert the vote, then opportunistically
resolve a pending participant by the voter username. -/
def on_poll_answer (db : DB) (tg_poll_id : String) (voter_id : Int)
    (username : Option String) (full_name : String)
    (option_ids : List Nat) (now : Nat) : DB :=
  match get_poll_by_tg_id db tg_poll_id with
  | none => db
  | some poll =>
      let option_idx : Option Nat := option_ids.head?
      let db1 := upsert_vote db poll.id voter_id option_idx now
      match username with
      | some u => (resolve_pending_by_username db1 poll.group_id u voter_id full_name).2
      | none => db1

/-- middleware.GroupRegistrationMiddleware for a group message: register
the group (idempotent), then resolve a pending participant when the
sender carries a username.  The user argument is (identity, optional
username, full name). -/
def middleware_on_message (db : DB) (chat_id : Int) (title : String)
    (user : Option (Int × Option String × String)) : DB :=
  let db1 := get_or_create_group db chat_id title
  match user with
  | some (uid, some uname, fname) =>
      (resolve_pending_by_username db1 chat_id uname uid fname).2
  | _ => db1

/-- Database.upsert_daily_result: INSERT a daily_results row, ON
CONFLICT(group_id, participant_id, result_date) update status only. -/
def upsert_daily_result (db : DB) (group_id : Int) (participant_id : Nat)
    (result_date : String) (status : String) : DB :=
  if db.daily_results.any (daily_key group_id participant_id result_date) then
    { db with daily_results := db.daily_results.map (fun r =>
        if daily_key group_id participant_id result_date r then
          { r with status := status }
        else r) }
  else
    { db with daily_results := db.daily_results ++
        [⟨group_id, participant_id, result_date, status⟩] }

/-- Python falsiness of the user_id column: NULL or 0. -/
def uid_falsy : Option Int → Bool
  | none => true
  | some v => v == 0

/-- Python falsiness of poll and poll tg_poll_id: missing row, NULL
column, or empty string. -/
def poll_unpublished : Option PollRow → Bool
  | none => true
  | some pl =>
      match pl.tg_poll_id with
      | none => true
      | some s => s.isEmpty

/-- The per-participant status computation of jobs.snapshot_daily_results:
missed if user_id is falsy or no published poll row exists, else missed
without a vote row or with a retracted one, else yes for option 0 and no
otherwise.  The final catch-all is unreachable because the guard already
handled missing user_id or poll. -/
def snapshot_status (db : DB) (poll : Option PollRow) (p : ParticipantRow) : String :=
  if uid_falsy p.user_id || poll_unpublished poll then "missed"
  else
    match poll, p.user_id with
    | some pl, some uid =>
        match get_vote db pl.id uid with
        | none => "missed"
        | some v =>
            match v.option_idx with
            | none => "missed"
            | some 0 => "yes"
            | some _ => "no"
    | _, _ => "missed"

/-- jobs.snapshot_daily_results: fetch the poll row for the day and the
active participants once, then upsert one daily result per participant. -/
def snapshot_daily_results (db : DB) (group_id : Int) (today : String) : DB :=
  let poll := get_poll_by_date db group_id today
  let participants := get_active_participants db group_id
  participants.foldl (fun d p =>
    upsert_daily_result d group_id p.id today (snapshot_status d poll p)) db

/-- One row of the weekly leaderboard query result. -/
structure LBRow where
  pid : Nat
  display_name : String
  user_id : Option Int
  username : Option String
  yes_count : Nat
  no_count : Nat
  missed_count : Nat
deriving DecidableEq

/-- Count of daily_results rows of a participant with the given status and
result_date BETWEEN week_start AND week_end. -/
def count_status (db : DB) (pid : Nat) (week_start week_end status : String) : Nat :=
  (db.daily_results.filter (fun r =>
      r.participant_id == pid && strLe week_start r.result_date &&
      strLe r.result_date week_end && r.status == status)).length

/-- The SELECT list of Database.get_weekly_leaderboard for one
participant. -/
def lb_entry (db : DB) (week_start week_end : String) (p : ParticipantRow) : LBRow :=
  ⟨p.id, p.display_name, p.user_id, p.username,
   count_status db p.id week_start week_end "yes",
   count_status db p.id week_start week_end "no",
   count_status db p.id week_start week_end "missed"⟩

/-- ORDER BY yes_count DESC, display_name COLLATE NOCASE ASC. -/
def lb_order (a b : LBRow) : Prop :=
  b.yes_count < a.yes_count ∨
    (a.yes_count = b.yes_count ∧
      strLe (asciiLower a.display_name) (asciiLower b.display_name) = true)

instance : DecidableRel lb_order := fun a b => by
  unfold lb_order
  exact inferInstance

instance : IsTotal LBRow lb_order where
  total a b := by
    have hstr : ∀ as bs : List Char, charListLe as bs = true ∨ charListLe bs as = true := by
      intro as
      induction as with
      | nil => intro bs; exact Or.inl rfl
      | cons x as ih =>
          intro bs
          cases bs with
          | nil => exact Or.inr rfl
          | cons y bs =>
              rcases Nat.lt_trichotomy x.toNat y.toNat with h | h | h
              · left
                simp [charListLe, h]
              · rcases ih bs with h2 | h2
                · left
                  simp [charListLe, h, h2]
                · right
                  simp [charListLe, h, h2]
              · right
                simp [charListLe, h]
    rcases Nat.lt_trichotomy a.yes_count b.yes_count with h | h | h
    · exact Or.inr (Or.inl h)
    · rcases hstr (asciiLower a.display_name).data (asciiLower b.display_name).data
        with hs | hs
      · exact Or.inl (Or.inr ⟨h, hs⟩)
      · exact Or.inr (Or.inr ⟨h.symm, hs⟩)
    · exact Or.inl (Or.inl h)

instance : IsTrans LBRow lb_order where
  trans a b c hab hbc := by
    have htr : ∀ as bs cs : List Char, charListLe as bs = true →
        charListLe bs cs = true → charListLe as cs = true := by
      intro as
      induction as with
      | nil => intro bs cs _ _; rfl
      | cons x as ih =>
          intro bs cs h1 h2
          cases bs with
          | nil => exact absurd h1 (by simp [charListLe])
          | cons y bs =>
              cases cs with
              | nil => exact absurd h2 (by simp [charListLe])
              | cons z cs =>
                  rcases Nat.lt_trichotomy x.toNat y.toNat with hab2 | hab2 | hab2
                  · rcases Nat.lt_trichotomy y.toNat z.toNat with hbc2 | hbc2 | hbc2
                    · simp [charListLe, hab2.trans hbc2]
                    · simp [charListLe, hbc2 ▸ hab2]
                    · exact absurd h2 (by simp [charListLe, hbc2, Nat.lt_asymm hbc2])
                  · rcases Nat.lt_trichotomy y.toNat z.toNat with hbc2 | hbc2 | hbc2
                    · simp [charListLe, hab2 ▸ hbc2]
                    · have h1x : charListLe as bs = true := by
                        simpa [charListLe, hab2] using h1
                      have h2x : charListLe bs cs = true := by
                        simpa [charListLe, hbc2] using h2
                      simp [charListLe, hab2.trans hbc2, ih bs cs h1x h2x]
                    · exact absurd h2 (by simp [charListLe, hbc2, Nat.lt_asymm hbc2])
                  · exact absurd h1 (by simp [charListLe, hab2, Nat.lt_asymm hab2])
    rcases hab with h1 | ⟨h1, h1s⟩ <;> rcases hbc with h2 | ⟨h2, h2s⟩
    · exact Or.inl (h2.trans h1)
    · exact Or.inl (h2 ▸ h1)
    · exact Or.inl (h1 ▸ h2)
    · exact Or.inr ⟨h1.trans h2, htr _ _ _ h1s h2s⟩

/-- Database.get_weekly_leaderboard: aggregate daily_results in range per
active participant of the group, ordered by yes_count descending then
display name ascending case-insensitively. -/
def get_weekly_leaderboard (db : DB) (group_id : Int)
    (week_start week_end : String) : List LBRow :=
  List.insertionSort lb_order
    ((db.participants.filter (fun p => p.group_id == group_id && p.active)).map
      (lb_entry db week_start week_end))

/-- Database.check_weekly_result_exists. -/
def check_weekly_result_exists (db : DB) (group_id : Int) (week_start : String) : Bool :=
  db.weekly_results.any (fun r => r.group_id == group_id && r.week_start == week_start)

/-- Database.insert_weekly_result: INSERT OR IGNORE, skipping the row when
UNIQUE(group_id, participant_id, week_start) is violated. -/
def insert_weekly_result (db : DB) (group_id : Int) (participant_id : Nat)
    (week_start : String) (total_yes total_no total_missed : Nat)
    (completion_rate_x100 : Nat) (rank_pos : Nat) : DB :=
  if db.weekly_results.any (weekly_key group_id participant_id week_start) then
    db
  else
    { db with weekly_results := db.weekly_results ++
        [⟨group_id, participant_id, week_start, total_yes, total_no, total_missed,
          completion_rate_x100, rank_pos⟩] }

/-- Round-half-to-even of the fraction p / q (the rounding mode of the
Python round builtin) for natural p and positive q. -/
def roundHalfEvenFrac (p q : Nat) : Nat :=
  let f := p / q
  let r := p % q
  if 2 * r < q then f
  else if q < 2 * r then f + 1
  else if f % 2 = 0 then f else f + 1

/-- Python round(p / q, 2), expressed in integer hundredths. -/
def pyRound2_x100 (p q : Nat) : Nat :=
  roundHalfEvenFrac (p * 100) q

/-- Outcome of one run of jobs.post_weekly_summary.  Only the posted
outcome publishes a summary message to the group; alreadyPosted is the
idempotency early return and noParticipants the empty-leaderboard early
return, both of which publish nothing. -/
inductive SummaryOutcome where
  | alreadyPosted : SummaryOutcome
  | noParticipants : SummaryOutcome
  | posted : List LBRow → SummaryOutcome
deriving DecidableEq

/-- The snapshot loop of jobs.post_weekly_summary for the scheduled run:
for i, p in enumerate(rows), insert a weekly_results row with
rate = yes / total_days * 100 rounded to two decimals (stored in
hundredths, so the rounded percentage yes * 100 / total_days goes through
pyRound2_x100) and rank i + 1. -/
def insert_weekly_rows (group_id : Int) (week_start : String) (total_days : Nat) :
    Nat → List LBRow → DB → DB
  | _, [], db => db
  | i, p :: rest, db =>
      insert_weekly_rows group_id week_start total_days (i + 1) rest
        (insert_weekly_result db group_id p.pid week_start
          p.yes_count p.no_count p.missed_count
          (pyRound2_x100 (p.yes_count * 100) total_days) (i + 1))

/-- jobs.post_weekly_summary.  The week bounds and total_days =
(week_end - week_start).days + 1 are computed by the caller from the
calendar and passed in here.  For the scheduled run (preview = false) the
already-posted guard fires first; then an empty leaderboard returns
early; otherwise each row is snapshotted and the summary published.  A
preview run never snapshots. -/
def post_weekly_summary (db : DB) (group_id : Int)
    (week_start week_end : String) (total_days : Nat) (preview : Bool) :
    DB × SummaryOutcome :=
  if !preview && check_weekly_result_exists db group_id week_start then
    (db, SummaryOutcome.alreadyPosted)
  else
    let rows := get_weekly_leaderboard db group_id week_start week_end
    if rows.isEmpty then (db, SummaryOutcome.noParticipants)
    else if preview then (db, SummaryOutcome.posted rows)
    else (insert_weekly_rows group_id week_start total_days 0 rows db,
          SummaryOutcome.posted rows)

/-- The 24-hour HH:MM validation pattern of handlers/admin.py:
re.fullmatch of ([01]?\d|2[0-3]):[0-5]\d, with \d modelled over ASCII
digits. -/
def validTimeFormat (s : String) : Bool :=
  match s.data with
  | [h, c, m1, m2] =>
      c == ':' && h.isDigit && m1.isDigit && decide (m1 ≤ '5') && m2.isDigit
  | [h1, h2, c, m1, m2] =>
      c == ':' &&
      ((h1 == '0' || h1 == '1') && h2.isDigit ||
        (h1 == '2' && h2.isDigit && decide (h2 ≤ '3'))) &&
      m1.isDigit && decide (m1 ≤ '5') && m2.isDigit
  | _ => false

/-- handlers/admin.cmd_set_time on the already-stripped argument: reject
with a corrective reply and no state change unless the input matches the
HH:MM pattern; on success persist the poll time (the reply text and the
scheduler reinstall are outside the store state).  The Bool records
acceptance. -/
def cmd_set_time (db : DB) (group_id : Int) (raw : String) : DB × Bool :=
  if validTimeFormat raw then (set_poll_time db group_id raw, true)
  else (db, false)

/-- handlers/admin.cmd_set_reminder_time on the already-stripped argument:
same validation as cmd_set_time, persisting the reminder time on
success. -/
def cmd_set_reminder_time (db : DB) (group_id : Int) (raw : String) : DB × Bool :=
  if validTimeFormat raw then (set_reminder_time db group_id raw, true)
  else (db, false)

/-!  Key-uniqueness invariants of the UNIQUE constraints, stated as
nodup-ness of the projected key lists, plus generic helper lemmas about
filtering a keyed list. -/

/-- UNIQUE(poll_id, user_id) on votes. -/
def votesKeyUnique (l : List VoteRow) : Prop :=
  (l.map (fun v => (v.poll_id, v.user_id))).Nodup

/-- UNIQUE(group_id, participant_id, result_date) on daily_results. -/
def dailyKeyUnique (l : List DailyResultRow) : Prop :=
  (l.map (fun r => (r.group_id, r.participant_id, r.result_date))).Nodup

instance (l : List VoteRow) : Decidable (votesKeyUnique l) := by
  unfold votesKeyUnique
  exact inferInstance

instance (l : List DailyResultRow) : Decidable (dailyKeyUnique l) := by
  unfold dailyKeyUnique
  exact inferInstance

/-- handlers/poll.on_poll_answer restricted to its vote-upsert effect: a
finite sequence of recordResponse calls for one (ballot, identity) pair,
each carrying the chosen option and the clock reading. -/
def apply_votes (db : DB) (poll_id : Nat) (user_id : Int)
    (calls : List (Option Nat × Nat)) : DB :=
  calls.foldl (fun d c => upsert_vote d poll_id user_id c.1 c.2) db

/-- Conclusion of claim C1 for a state db, group g, day d: the first
reservation returns the fresh poll id, the second returns none, exactly
one polls row for (g, d) remains after both calls of the job, and the
second job run publishes nothing. -/
def openBallot_claim (db : DB) (g : Int) (d : String) (tg : String) (mid : Nat)
    (tr2 : Option (String × Nat)) : Prop :=
  (try_create_poll_slot db g d).1 = some db.next_poll_id ∧
  db.next_poll_id ∉ db.polls.map (fun p => p.id) ∧
  (try_create_poll_slot (post_daily_poll db g d (some (tg, mid))).1 g d).1 = none ∧
  (post_daily_poll (post_daily_poll db g d (some (tg, mid))).1 g d tr2).2 = false ∧
  ((post_daily_poll (post_daily_poll db g d (some (tg, mid))).1 g d tr2).1.polls.filter
      (poll_key g d)).length = 1

/-- Conclusion of claim C5: after the calls, exactly one Response row for
the (ballot, identity) pair exists and its option equals the option c.1
of the last call c. -/
def recordResponse_claim (db : DB) (poll_id : Nat) (user_id : Int)
    (calls : List (Option Nat × Nat)) (c : Option Nat × Nat) : Prop :=
  ((apply_votes db poll_id user_id calls).votes.filter
      (vote_key poll_id user_id)).map (fun v => v.option_idx) = [c.1]

/-- Conclusion of claim C10: starting from an existing Response row r for
the pair, any number of further recordResponse calls leaves exactly one
row for the pair whose key fields and originally recorded time voted_at
are those of r, leaves every other Response row unchanged, and touches no
other table. -/
def recordResponse_frame_claim (db : DB) (poll_id : Nat) (user_id : Int)
    (r : VoteRow) (calls : List (Option Nat × Nat)) : Prop :=
  (∃ v, (apply_votes db poll_id user_id calls).votes.filter
          (vote_key poll_id user_id) = [v] ∧
        v.poll_id = r.poll_id ∧ v.user_id = r.user_id ∧ v.voted_at = r.voted_at) ∧
  (apply_votes db poll_id user_id calls).votes.filter
      (fun v => !(vote_key poll_id user_id v)) =
    db.votes.filter (fun v => !(vote_key poll_id user_id v)) ∧
  (apply_votes db poll_id user_id calls).groups = db.groups ∧
  (apply_votes db poll_id user_id calls).settings = db.settings ∧
  (apply_votes db poll_id user_id calls).participants = db.participants ∧
  (apply_votes db poll_id user_id calls).polls = db.polls ∧
  (apply_votes db poll_id user_id calls).daily_results = db.daily_results ∧
  (apply_votes db poll_id user_id calls).weekly_results = db.weekly_results

/-- The option a participant effectively has on record for the day: the
option_idx of the Response row for the published ballot of the day, none
when there is no poll, no identity, no row, or a retraction. -/
def voteOption (db : DB) (g : Int) (today : String) (p : ParticipantRow) :
    Option Nat :=
  match get_poll_by_date db g today, p.user_id with
  | some pl, some uid => (get_vote db pl.id uid).bind (fun v => v.option_idx)
  | _, _ => none

/-- The missed conditions listed by claim C2: identity unknown (the
Python falsiness test on user_id), no published ballot for the day, no
recorded response, or a retracted response. -/
def daily_missed_cond (db : DB) (g : Int) (today : String) (p : ParticipantRow) : Bool :=
  uid_falsy p.user_id || poll_unpublished (get_poll_by_date db g today) ||
    (voteOption db g today p == none)

/-- Conclusion of claim C2 for one active participant p: the snapshot
leaves exactly one Daily Result row for (g, p, today), and its status is
missed exactly under the missed conditions, else yes for option 0 and no
otherwise. -/
def snapshotDay_claim (db : DB) (g : Int) (today : String) (p : ParticipantRow) : Prop :=
  (snapshot_daily_results db g today).daily_results.filter (daily_key g p.id today) =
    [⟨g, p.id, today, snapshot_status db (get_poll_by_date db g today) p⟩] ∧
  snapshot_status db (get_poll_by_date db g today) p =
    (if daily_missed_cond db g today p then "missed"
     else if voteOption db g today p == some 0 then "yes" else "no")

/-- Conclusion of the amended claim C3: the second scheduled run changes
no stored state and returns immediately with the already-posted outcome,
so the rows stored by the first run (with their rank assignments) remain
unchanged and nothing is re-published. -/
def finalize_rerun_claim (db : DB) (g : Int) (ws we : String) (n : Nat) : Prop :=
  (post_weekly_summary (post_weekly_summary db g ws we n false).1 g ws we n false).1 =
    (post_weekly_summary db g ws we n false).1 ∧
  (post_weekly_summary (post_weekly_summary db g ws we n false).1 g ws we n false).2 =
    SummaryOutcome.alreadyPosted

/-- The weekly_results row persisted for leaderboard entry p at rank
index i: the completion rate is yes divided by the period length, times
100, rounded to two decimals (in hundredths). -/
def mkWeeklyRow (g : Int) (ws : String) (n : Nat) (i : Nat) (p : LBRow) :
    WeeklyResultRow :=
  ⟨g, p.pid, ws, p.yes_count, p.no_count, p.missed_count,
   pyRound2_x100 (p.yes_count * 100) n, i + 1⟩

/-- The rows the scheduled snapshot loop persists, leaderboard order,
rank positions starting at i + 1. -/
def expected_weekly_rows (g : Int) (ws : String) (n : Nat) :
    Nat → List LBRow → List WeeklyResultRow
  | _, [] => []
  | i, p :: rest => mkWeeklyRow g ws n i p :: expected_weekly_rows g ws n (i + 1) rest

/-- Conclusion of the amended claim C4: the scheduled run appends exactly
the rows of expected_weekly_rows, whose completion rate field is the
two-decimal rounding of yes / total_days * 100, in hundredths. -/
def weeklySnapshot_claim (db : DB) (g : Int) (ws we : String) (n : Nat) : Prop :=
  (post_weekly_summary db g ws we n false).1.weekly_results =
    db.weekly_results ++
      expected_weekly_rows g ws n 0 (get_weekly_leaderboard db g ws we)

/-- Conclusion of claim C6: after a pending enrollment under alias u and
an inbound group message from identity uid carrying alias u2 (equal to u
up to ASCII case), the single participant row matching the alias is
active, not pending, bound to uid with the display name of the activity,
and no participant row was created by the resolution. -/
def pendingResolution_claim (db : DB) (g : Int) (u u2 : String) (uid : Int)
    (dn title : String) : Prop :=
  (middleware_on_message (add_pending_participant db g u).2 g title
      (some (uid, some u2, dn))).participants.length =
    (add_pending_participant db g u).2.participants.length ∧
  (middleware_on_message (add_pending_participant db g u).2 g title
      (some (uid, some u2, dn))).participants.filter
      (fun p => p.group_id == g && usernameMatches p u2) =
    [⟨(add_pending_participant db g u).1, g, some uid, some u, dn, true, false⟩]

/-- Concrete data for claim C7 mirroring the example of the claim:
participant A is Zoe with three yes days, participant B is Amy with three
yes days, participant C is Cal with two yes days, so the name of A sorts
after the name of B and the expected order is [B, A, C], that is
[Amy, Zoe, Cal]. -/
def exDbC7 : DB :=
  ⟨[⟨300, "G", true⟩], [],
   [⟨1, 300, some 11, none, "Zoe", true, false⟩,
    ⟨2, 300, some 12, none, "Amy", true, false⟩,
    ⟨3, 300, some 13, none, "Cal", true, false⟩],
   [], [],
   [⟨300, 1, "2024-03-04", "yes"⟩, ⟨300, 1, "2024-03-05", "yes"⟩,
    ⟨300, 1, "2024-03-06", "yes"⟩,
    ⟨300, 2, "2024-03-04", "yes"⟩, ⟨300, 2, "2024-03-05", "yes"⟩,
    ⟨300, 2, "2024-03-06", "yes"⟩,
    ⟨300, 3, "2024-03-04", "yes"⟩, ⟨300, 3, "2024-03-05", "yes"⟩,
    ⟨300, 3, "2024-03-06", "no"⟩],
   [], 10, 0⟩

/-- Conclusion of claim C7: the leaderboard rows are exactly the
lb_entry aggregates of the currently-active participants of the group,
the list is sorted by yes-count descending then name ascending
case-insensitively, and on the concrete example data the order is
[B, A, C] = [Amy, Zoe, Cal]. -/
def leaderboard_claim (db : DB) (g : Int) (ws we : String) : Prop :=
  (∀ r, r ∈ get_weekly_leaderboard db g ws we ↔
     ∃ p ∈ db.participants, p.group_id = g ∧ p.active = true ∧
       r = lb_entry db ws we p) ∧
  List.Sorted lb_order (get_weekly_leaderboard db g ws we) ∧
  (get_weekly_leaderboard exDbC7 300 "2024-03-04" "2024-03-10").map
      (fun r => r.display_name) = ["Amy", "Zoe", "Cal"]

/-- Conclusion of claim C8: a valid HH:MM input is accepted and the
reminder time is persisted into the Settings row of the group. -/
def setReminderTime_claim (db : DB) (g : Int) (raw : String) : Prop :=
  (cmd_set_reminder_time db g raw).2 = true ∧
  (∀ s ∈ (cmd_set_reminder_time db g raw).1.settings,
      s.group_id = g → s.reminder_time = some raw) ∧
  (∃ s ∈ (cmd_set_reminder_time db g raw).1.settings,
      s.group_id = g ∧ s.reminder_time = some raw)

/-- Conclusion of claim C9: the set-ballot-time input is accepted exactly
when it matches the HH:MM pattern, and a rejected input leaves the whole
state unchanged. -/
def setTime_claim (db : DB) (g : Int) (raw : String) : Prop :=
  ((cmd_set_time db g raw).2 = true ↔ validTimeFormat raw = true) ∧
  (validTimeFormat raw = false → cmd_set_time db g raw = (db, false))

/-- Concrete one-group empty state for the C1 witness. -/
def exDbC1 : DB := ⟨[⟨1, "G", true⟩], [], [], [], [], [], [], 0, 0⟩

/-- Base state for the C2 scenario: group 100, one active participant
bound to identity 555, a published ballot for 2024-03-04, no votes
yet. -/
def exDbC2base : DB :=
  ⟨[⟨100, "G", true⟩], [],
   [⟨1, 100, some 555, some "u", "Dana", true, false⟩],
   [⟨1, 100, "2024-03-04", some "tg1", some 9⟩],
   [], [], [], 2, 2⟩

/-- The C2 scenario state: identity 555 answers the ballot with option 0
(yes) and then retracts (empty option_ids) before day-end. -/
def exDbC2 : DB :=
  on_poll_answer
    (on_poll_answer exDbC2base "tg1" 555 (some "u") "Dana" [0] 1)
    "tg1" 555 (some "u") "Dana" [] 2

/-- The participant row of the C2 scenario. -/
def exC2row : ParticipantRow := ⟨1, 100, some 555, some "u", "Dana", true, false⟩

/-- State with an already-finalized week 2024-03-04 for group 200, used
to refute the as-stated claim C3. -/
def exDbC3 : DB :=
  ⟨[⟨200, "G", true⟩], [],
   [⟨1, 200, some 5, none, "P", true, false⟩],
   [], [], [],
   [⟨200, 1, "2024-03-04", 3, 0, 0, 4286, 1⟩], 2, 0⟩

/-- State used for the C3 witness and the C4 counterexample and witness:
group 100, one participant with three yes days in the week starting
2024-03-04, nothing finalized yet. -/
def exDbC4 : DB :=
  ⟨[⟨100, "G", true⟩], [],
   [⟨1, 100, some 555, none, "Dana", true, false⟩],
   [], [],
   [⟨100, 1, "2024-03-04", "yes"⟩, ⟨100, 1, "2024-03-05", "yes"⟩,
    ⟨100, 1, "2024-03-06", "yes"⟩],
   [], 2, 0⟩

/-- Empty state for the C5 witness. -/
def exDbC5 : DB := ⟨[], [], [], [], [], [], [], 0, 0⟩

/-- State for the C10 witness: one existing Response row for ballot 1 and
identity 555, recorded at tick 7. -/
def exDbC10 : DB :=
  ⟨[], [], [], [], [⟨1, 555, some 0, 7, 7⟩], [], [], 0, 0⟩

/-- The existing Response row of the C10 witness. -/
def exC10row : VoteRow := ⟨1, 555, some 0, 7, 7⟩

/-- Empty state for the C6 witness, mirroring the spec scenario of group
100, alias alice, identity 555. -/
def exDbC6 : DB := ⟨[], [], [], [], [], [], [], 0, 0⟩

/-- State with a settings row for group 7 used by the C8 and C9
witnesses. -/
def exDbC8 : DB :=
  ⟨[⟨7, "G", true⟩], [⟨7, "20:00", none, "Asia/Almaty", true⟩],
   [], [], [], [], [], 0, 0⟩

/-- Filtering a list whose projected keys are nodup by a predicate that
recognises exactly one key value yields nil or a singleton. -/
theorem filter_key_nil_or_singleton {α β : Type} (p : α → Bool) (k : α → β)
    (b : β) (hp : ∀ a, p a = true ↔ k a = b) :
    ∀ l : List α, (l.map k).Nodup →
      l.filter p = [] ∨ ∃ r, l.filter p = [r] ∧ k r = b := by
  intro l
  induction l with
  | nil => intro _; exact Or.inl rfl
  | cons a l ih =>
      intro hnd
      rw [List.map_cons, List.nodup_cons] at hnd
      by_cases ha : p a
      · refine Or.inr ⟨a, ?_, (hp a).1 ha⟩
        have hl : l.filter p = [] := by
          rw [List.filter_eq_nil_iff]
          intro x hx hpx
          exact hnd.1 (((hp a).1 ha).trans ((hp x).1 hpx).symm ▸
            List.mem_map_of_mem k hx)
        simp [List.filter_cons, ha, hl]
      · have h2 : (a :: l).filter p = l.filter p := by
          simp [List.filter_cons, ha]
        rw [h2]
        exact ih hnd.2

/-- A member recognised by the predicate forces the singleton case. -/
theorem filter_key_singleton_of_mem {α β : Type} (p : α → Bool) (k : α → β)
    (b : β) (hp : ∀ a, p a = true ↔ k a = b) (l : List α)
    (hnd : (l.map k).Nodup) (r : α) (hr : r ∈ l) (hpr : p r = true) :
    l.filter p = [r] := by
  rcases filter_key_nil_or_singleton p k b hp l hnd with h | ⟨s, hs, _⟩
  · exact absurd (List.mem_filter.2 ⟨hr, hpr⟩) (h ▸ List.not_mem_nil r)
  · have : r ∈ l.filter p := List.mem_filter.2 ⟨hr, hpr⟩
    rw [hs] at this
    rw [hs, List.mem_singleton.1 this]

/-- vote_key recognises exactly the key pair (poll_id, user_id). -/
theorem vote_key_iff (poll_id : Nat) (user_id : Int) (v : VoteRow) :
    vote_key poll_id user_id v = true ↔ (v.poll_id, v.user_id) = (poll_id, user_id) := by
  simp [vote_key, Prod.ext_iff]

/-- daily_key recognises exactly the key triple. -/
theorem daily_key_iff (g : Int) (pid : Nat) (d : String) (r : DailyResultRow) :
    daily_key g pid d r = true ↔
      (r.group_id, r.participant_id, r.result_date) = (g, pid, d) := by
  simp [daily_key, Prod.ext_iff, and_assoc]

/-!  C1: opening the same ballot slot twice. -/

/-- C1: for every group g and day d, calling openBallot
(try_create_poll_slot) twice for (g, d) yields exactly one Ballot row for
(g, d); the first call returns a fresh poll id and the second call
returns the already-claimed outcome none, which post_daily_poll treats as
not-an-error and skips publishing. -/
theorem openBallot_twice_one_row (db : DB) (g : Int) (d : String)
    (tg : String) (mid : Nat) (tr2 : Option (String × Nat))
    (hg : db.groups.any (fun gr => gr.group_id == g) = true)
    (hno : db.polls.any (poll_key g d) = false)
    (hbound : ∀ p ∈ db.polls, p.id < db.next_poll_id) :
    openBallot_claim db g d tg mid tr2 := by
  have hnokey : ∀ p ∈ db.polls, ¬poll_key g d p := List.any_eq_false.1 hno
  have h1 : try_create_poll_slot db g d =
      (some db.next_poll_id,
       { db with polls := db.polls ++ [⟨db.next_poll_id, g, d, none, none⟩],
                 next_poll_id := db.next_poll_id + 1 }) := by
    rw [try_create_poll_slot, hno, hg]
    rfl
  have hdb1 : post_daily_poll db g d (some (tg, mid)) =
      (update_poll_telegram_ids
        { db with polls := db.polls ++ [⟨db.next_poll_id, g, d, none, none⟩],
                  next_poll_id := db.next_poll_id + 1 } g d tg mid, true) := by
    rw [post_daily_poll, h1]
  have hkeynew : poll_key g d (⟨db.next_poll_id, g, d, none, none⟩ : PollRow) = true := by
    simp [poll_key]
  have hfilter1 :
      (post_daily_poll db g d (some (tg, mid))).1.polls.filter (poll_key g d) =
        [⟨db.next_poll_id, g, d, some tg, some mid⟩] := by
    rw [hdb1]
    simp only [update_poll_telegram_ids]
    rw [List.map_append, List.filter_append]
    have hL : ((db.polls.map (fun p =>
        if poll_key g d p then
          { p with tg_poll_id := some tg, message_id := some mid }
        else p)).filter (poll_key g d)) = [] := by
      rw [List.filter_eq_nil_iff]
      intro x hx
      rw [List.mem_map] at hx
      obtain ⟨p, hp, rfl⟩ := hx
      have hnp := hnokey p hp
      rw [if_neg hnp]
      exact hnp
    rw [hL, List.nil_append]
    simp [poll_key, hkeynew]
  have hmem : (⟨db.next_poll_id, g, d, some tg, some mid⟩ : PollRow) ∈
      (post_daily_poll db g d (some (tg, mid))).1.polls := by
    have : (⟨db.next_poll_id, g, d, some tg, some mid⟩ : PollRow) ∈
        (post_daily_poll db g d (some (tg, mid))).1.polls.filter (poll_key g d) := by
      rw [hfilter1]
      exact List.mem_singleton.2 rfl
    exact List.mem_of_mem_filter this
  have hany1 : (post_daily_poll db g d (some (tg, mid))).1.polls.any (poll_key g d) = true := by
    rw [List.any_eq_true]
    exact ⟨⟨db.next_poll_id, g, d, some tg, some mid⟩, hmem, by simp [poll_key]⟩
  have h2 : try_create_poll_slot (post_daily_poll db g d (some (tg, mid))).1 g d =
      (none, (post_daily_poll db g d (some (tg, mid))).1) := by
    rw [try_create_poll_slot, hany1]
    rfl
  have h3 : post_daily_poll (post_daily_poll db g d (some (tg, mid))).1 g d tr2 =
      ((post_daily_poll db g d (some (tg, mid))).1, false) := by
    rw [post_daily_poll, h2]
  refine ⟨by rw [h1], ?_, by rw [h2], by rw [h3], ?_⟩
  · intro hmemid
    rw [List.mem_map] at hmemid
    obtain ⟨p, hp, hid⟩ := hmemid
    exact absurd (hbound p hp) (by rw [hid]; exact lt_irrefl _)
  · simp [h3, hfilter1]

/-- Witness for C1 at a concrete state: the hypotheses hold and the claim
follows by the theorem. -/
theorem openBallot_twice_one_row_witness :
    (exDbC1.groups.any (fun gr => gr.group_id == 1) = true) ∧
    (exDbC1.polls.any (poll_key 1 "2024-03-04") = false) ∧
    (∀ p ∈ exDbC1.polls, p.id < exDbC1.next_poll_id) ∧
    openBallot_claim exDbC1 1 "2024-03-04" "tg1" 5 none :=
  ⟨by decide, by decide, by decide,
   openBallot_twice_one_row exDbC1 1 "2024-03-04" "tg1" 5 none
     (by decide) (by decide) (by decide)⟩

/-!  Vote upsert machinery for C5 and C10. -/

/-- upsert_vote touches only the votes table. -/
theorem upsert_vote_frame (db : DB) (pid : Nat) (uid : Int) (o : Option Nat) (t : Nat) :
    (upsert_vote db pid uid o t).groups = db.groups ∧
    (upsert_vote db pid uid o t).settings = db.settings ∧
    (upsert_vote db pid uid o t).participants = db.participants ∧
    (upsert_vote db pid uid o t).polls = db.polls ∧
    (upsert_vote db pid uid o t).daily_results = db.daily_results ∧
    (upsert_vote db pid uid o t).weekly_results = db.weekly_results := by
  unfold upsert_vote
  split <;> exact ⟨rfl, rfl, rfl, rfl, rfl, rfl⟩

/-- The vote update of the conflict branch preserves the key. -/
theorem vote_key_update (pid : Nat) (uid : Int) (o : Option Nat) (t : Nat) (v : VoteRow) :
    vote_key pid uid { v with option_idx := o, updated_at := t } = vote_key pid uid v :=
  rfl

/-- Inserting a vote for a pair with no existing row: the key filter
afterwards is the single fresh row. -/
theorem upsert_vote_filter_key_new (db : DB) (pid : Nat) (uid : Int)
    (o : Option Nat) (t : Nat)
    (hnone : db.votes.filter (vote_key pid uid) = []) :
    (upsert_vote db pid uid o t).votes.filter (vote_key pid uid) =
      [⟨pid, uid, o, t, t⟩] := by
  have hany : db.votes.any (vote_key pid uid) = false := by
    rw [List.any_eq_false]
    exact List.filter_eq_nil_iff.1 hnone
  rw [upsert_vote, if_neg (by rw [hany]; exact Bool.false_ne_true)]
  show (db.votes ++ [(⟨pid, uid, o, t, t⟩ : VoteRow)]).filter (vote_key pid uid) =
    [(⟨pid, uid, o, t, t⟩ : VoteRow)]
  rw [List.filter_append, hnone, List.nil_append]
  simp [vote_key]

/-- Updating a vote for a pair whose key filter is the singleton [r]: the
key filter afterwards is the updated r. -/
theorem upsert_vote_filter_key_upd (db : DB) (pid : Nat) (uid : Int)
    (o : Option Nat) (t : Nat) (r : VoteRow)
    (hr : db.votes.filter (vote_key pid uid) = [r]) :
    (upsert_vote db pid uid o t).votes.filter (vote_key pid uid) =
      [{ r with option_idx := o, updated_at := t }] := by
  have hrmem : r ∈ db.votes.filter (vote_key pid uid) := by
    rw [hr]; exact List.mem_singleton.2 rfl
  have hkr : vote_key pid uid r = true := List.of_mem_filter hrmem
  have hany : db.votes.any (vote_key pid uid) = true := by
    rw [List.any_eq_true]
    exact ⟨r, List.mem_of_mem_filter hrmem, hkr⟩
  rw [upsert_vote, if_pos hany]
  show ((db.votes.map fun v =>
      if vote_key pid uid v then { v with option_idx := o, updated_at := t }
      else v)).filter (vote_key pid uid) = _
  rw [List.map_filter]
  have hcomp : db.votes.filter ((vote_key pid uid) ∘ fun v =>
      if vote_key pid uid v then { v with option_idx := o, updated_at := t }
      else v) = db.votes.filter (vote_key pid uid) := by
    apply List.filter_congr
    intro v _
    simp only [Function.comp_apply]
    by_cases h : vote_key pid uid v = true
    · rw [if_pos h, vote_key_update]
    · rw [if_neg h]
  rw [hcomp, hr, List.map_singleton, if_pos hkr]

/-- upsert_vote preserves key-uniqueness of the votes table. -/
theorem upsert_vote_keyUnique (db : DB) (pid : Nat) (uid : Int)
    (o : Option Nat) (t : Nat) (hu : votesKeyUnique db.votes) :
    votesKeyUnique (upsert_vote db pid uid o t).votes := by
  unfold votesKeyUnique at hu ⊢
  rw [upsert_vote]
  by_cases hany : db.votes.any (vote_key pid uid) = true
  · rw [if_pos hany]
    show ((db.votes.map fun v =>
        if vote_key pid uid v then { v with option_idx := o, updated_at := t }
        else v)).map (fun v => (v.poll_id, v.user_id)) |>.Nodup
    rw [List.map_map]
    have : db.votes.map ((fun v : VoteRow => (v.poll_id, v.user_id)) ∘ fun v =>
        if vote_key pid uid v then { v with option_idx := o, updated_at := t }
        else v) = db.votes.map (fun v => (v.poll_id, v.user_id)) := by
      apply List.map_congr_left
      intro v _
      simp only [Function.comp_apply]
      by_cases h : vote_key pid uid v = true
      · rw [if_pos h]
      · rw [if_neg h]
    rw [this]
    exact hu
  · rw [if_neg hany]
    show ((db.votes ++ [(⟨pid, uid, o, t, t⟩ : VoteRow)]).map
        fun v => (v.poll_id, v.user_id)).Nodup
    rw [List.map_append, List.map_singleton]
    rw [List.nodup_append]
    refine ⟨hu, List.nodup_singleton _, ?_⟩
    intro x hx hx1
    rw [List.mem_singleton] at hx1
    rw [List.mem_map] at hx
    obtain ⟨v, hv, rfl⟩ := hx
    have : vote_key pid uid v = true := by
      rw [vote_key]
      rw [Prod.mk.injEq] at hx1
      simp [hx1.1, hx1.2]
    exact absurd (List.any_eq_true.2 ⟨v, hv, this⟩) (by simpa using hany)

/-- upsert_vote leaves every Response row of a different pair unchanged. -/
theorem upsert_vote_filter_nonkey (db : DB) (pid : Nat) (uid : Int)
    (o : Option Nat) (t : Nat) :
    (upsert_vote db pid uid o t).votes.filter (fun v => !(vote_key pid uid v)) =
      db.votes.filter (fun v => !(vote_key pid uid v)) := by
  rw [upsert_vote]
  by_cases hany : db.votes.any (vote_key pid uid) = true
  · rw [if_pos hany]
    show ((db.votes.map fun v =>
        if vote_key pid uid v then { v with option_idx := o, updated_at := t }
        else v)).filter (fun v => !(vote_key pid uid v)) = _
    rw [List.map_filter]
    have hcomp : db.votes.filter ((fun v => !(vote_key pid uid v)) ∘ fun v =>
        if vote_key pid uid v then { v with option_idx := o, updated_at := t }
        else v) = db.votes.filter (fun v => !(vote_key pid uid v)) := by
      apply List.filter_congr
      intro v _
      simp only [Function.comp_apply]
      by_cases h : vote_key pid uid v = true
      · rw [if_pos h, vote_key_update]
      · rw [if_neg h]
    rw [hcomp]
    conv_rhs => rw [← List.map_id (db.votes.filter (fun v => !(vote_key pid uid v)))]
    apply List.map_congr_left
    intro v hv
    have hnv := List.of_mem_filter hv
    rw [if_neg (by simpa using hnv)]
    rfl
  · rw [if_neg hany]
    show (db.votes ++ [(⟨pid, uid, o, t, t⟩ : VoteRow)]).filter
        (fun v => !(vote_key pid uid v)) =
      db.votes.filter (fun v => !(vote_key pid uid v))
    rw [List.filter_append]
    have : ([(⟨pid, uid, o, t, t⟩ : VoteRow)].filter fun v => !(vote_key pid uid v)) = [] := by
      simp [vote_key]
    rw [this, List.append_nil]

/-- Folding a function that ignores its accumulator returns the image of
the last element. -/
theorem foldl_const_last {α β : Type} (f : α → β) :
    ∀ (l : List α) (c : α), l.getLast? = some c →
      ∀ x : β, l.foldl (fun _ a => f a) x = f c := by
  intro l
  induction l with
  | nil => intro c hc; exact absurd hc (by simp)
  | cons a l ih =>
      intro c hc x
      cases l with
      | nil =>
          simp only [List.getLast?_singleton, Option.some.injEq] at hc
          subst hc
          rfl
      | cons b l2 =>
          have : (b :: l2).getLast? = some c := by
            rwa [List.getLast?_cons_cons] at hc
          exact ih c this (f a)

/-- Core induction for C5 and C10: starting from a state whose key filter
for the pair is the singleton [r], any sequence of upserts for the pair
leaves the singleton whose option and update time are the final folded
values and whose remaining fields are those of r. -/
theorem apply_votes_filter (pid : Nat) (uid : Int) :
    ∀ (calls : List (Option Nat × Nat)) (db : DB) (r : VoteRow),
      votesKeyUnique db.votes →
      db.votes.filter (vote_key pid uid) = [r] →
      (apply_votes db pid uid calls).votes.filter (vote_key pid uid) =
        [{ r with option_idx := calls.foldl (fun _ c => c.1) r.option_idx,
                  updated_at := calls.foldl (fun _ c => c.2) r.updated_at }] := by
  intro calls
  induction calls with
  | nil => intro db r _ hr; exact hr
  | cons c rest ih =>
      intro db r hu hr
      have hstep := upsert_vote_filter_key_upd db pid uid c.1 c.2 r hr
      have hu1 := upsert_vote_keyUnique db pid uid c.1 c.2 hu
      have := ih (upsert_vote db pid uid c.1 c.2)
        { r with option_idx := c.1, updated_at := c.2 } hu1 hstep
      exact this

/-- apply_votes touches only the votes table. -/
theorem apply_votes_frame (pid : Nat) (uid : Int) :
    ∀ (calls : List (Option Nat × Nat)) (db : DB),
      (apply_votes db pid uid calls).groups = db.groups ∧
      (apply_votes db pid uid calls).settings = db.settings ∧
      (apply_votes db pid uid calls).participants = db.participants ∧
      (apply_votes db pid uid calls).polls = db.polls ∧
      (apply_votes db pid uid calls).daily_results = db.daily_results ∧
      (apply_votes db pid uid calls).weekly_results = db.weekly_results := by
  intro calls
  induction calls with
  | nil => intro db; exact ⟨rfl, rfl, rfl, rfl, rfl, rfl⟩
  | cons c rest ih =>
      intro db
      have h1 := upsert_vote_frame db pid uid c.1 c.2
      have h2 := ih (upsert_vote db pid uid c.1 c.2)
      exact ⟨h2.1.trans h1.1, h2.2.1.trans h1.2.1, h2.2.2.1.trans h1.2.2.1,
             h2.2.2.2.1.trans h1.2.2.2.1, h2.2.2.2.2.1.trans h1.2.2.2.2.1,
             h2.2.2.2.2.2.trans h1.2.2.2.2.2⟩

/-- apply_votes leaves Response rows of other pairs unchanged. -/
theorem apply_votes_filter_nonkey (pid : Nat) (uid : Int) :
    ∀ (calls : List (Option Nat × Nat)) (db : DB),
      (apply_votes db pid uid calls).votes.filter (fun v => !(vote_key pid uid v)) =
        db.votes.filter (fun v => !(vote_key pid uid v)) := by
  intro calls
  induction calls with
  | nil => intro db; rfl
  | cons c rest ih =>
      intro db
      exact (ih (upsert_vote db pid uid c.1 c.2)).trans
        (upsert_vote_filter_nonkey db pid uid c.1 c.2)

/-- C5: for every (ballot, identity) pair and every finite sequence of
recordResponse (upsert_vote) calls for that pair, afterwards exactly one
Response row exists for the pair and its option equals the argument of
the last call, including transitions into retraction (none) and back out
of it. -/
theorem recordResponse_last_wins (db : DB) (pid : Nat) (uid : Int)
    (calls : List (Option Nat × Nat)) (c : Option Nat × Nat)
    (hlast : calls.getLast? = some c)
    (hu : votesKeyUnique db.votes) :
    recordResponse_claim db pid uid calls c := by
  unfold recordResponse_claim
  rcases filter_key_nil_or_singleton (vote_key pid uid)
      (fun v => (v.poll_id, v.user_id)) (pid, uid) (vote_key_iff pid uid)
      db.votes hu with hnil | ⟨r, hr, _⟩
  · cases calls with
    | nil => exact absurd hlast (by simp)
    | cons c0 rest =>
        have hstep := upsert_vote_filter_key_new db pid uid c0.1 c0.2 hnil
        have hu1 := upsert_vote_keyUnique db pid uid c0.1 c0.2 hu
        have hmain := apply_votes_filter pid uid rest
          (upsert_vote db pid uid c0.1 c0.2) ⟨pid, uid, c0.1, c0.2, c0.2⟩ hu1 hstep
        have happ : apply_votes db pid uid (c0 :: rest) =
            apply_votes (upsert_vote db pid uid c0.1 c0.2) pid uid rest := rfl
        rw [happ, hmain, List.map_singleton]
        have := foldl_const_last Prod.fst (c0 :: rest) c hlast c0.1
        simp only [List.foldl_cons] at this
        exact congrArg (fun o => [o]) this
  · have hmain := apply_votes_filter pid uid calls db r hu hr
    rw [hmain, List.map_singleton]
    exact congrArg (fun o => [o]) (foldl_const_last Prod.fst calls c hlast r.option_idx)

/-- Witness for C5: yes, retract, then no; one row remains with option
some 1. -/
theorem recordResponse_last_wins_witness :
    (([(some 0, 1), (none, 2), (some 1, 3)] :
        List (Option Nat × Nat)).getLast? = some (some 1, 3)) ∧
    votesKeyUnique exDbC5.votes ∧
    recordResponse_claim exDbC5 1 555 [(some 0, 1), (none, 2), (some 1, 3)] (some 1, 3) :=
  ⟨by decide, by decide,
   recordResponse_last_wins exDbC5 1 555 [(some 0, 1), (none, 2), (some 1, 3)]
     (some 1, 3) (by decide) (by decide)⟩

/-- C10: for every existing Response row, later recordResponse
(upsert_vote) calls for the same (ballot, identity) change only the
chosen option and the last-updated timestamp: the originally recorded
voted_at survives any number of vote changes and retractions, rows of
other pairs are untouched, and no other table changes. -/
theorem recordResponse_preserves_voted_at (db : DB) (pid : Nat) (uid : Int)
    (r : VoteRow) (calls : List (Option Nat × Nat))
    (hr : r ∈ db.votes) (hkr : vote_key pid uid r = true)
    (hu : votesKeyUnique db.votes) :
    recordResponse_frame_claim db pid uid r calls := by
  have hsingle : db.votes.filter (vote_key pid uid) = [r] :=
    filter_key_singleton_of_mem (vote_key pid uid)
      (fun v => (v.poll_id, v.user_id)) (pid, uid) (vote_key_iff pid uid)
      db.votes hu r hr hkr
  have hmain := apply_votes_filter pid uid calls db r hu hsingle
  have hframe := apply_votes_frame pid uid calls db
  refine ⟨⟨_, hmain, rfl, rfl, rfl⟩, apply_votes_filter_nonkey pid uid calls db,
    hframe.1, hframe.2.1, hframe.2.2.1, hframe.2.2.2.1, hframe.2.2.2.2.1,
    hframe.2.2.2.2.2⟩

/-- Witness for C10: after changing the vote and retracting it twice, the
original voted_at tick 7 is still on the single row of the pair. -/
theorem recordResponse_preserves_voted_at_witness :
    exC10row ∈ exDbC10.votes ∧ vote_key 1 555 exC10row = true ∧
    votesKeyUnique exDbC10.votes ∧
    recordResponse_frame_claim exDbC10 1 555 exC10row
      [(some 1, 8), (none, 9), (some 0, 10)] :=
  ⟨by decide, by decide, by decide,
   recordResponse_preserves_voted_at exDbC10 1 555 exC10row
     [(some 1, 8), (none, 9), (some 0, 10)] (by decide) (by decide) (by decide)⟩

/-- C9: the set-ballot-time input is accepted if and only if it matches
the 24-hour HH:MM pattern; a rejected input changes no state and reports
rejection (the corrective reply of the handler). -/
theorem cmd_set_time_validation (db : DB) (g : Int) (raw : String) :
    setTime_claim db g raw := by
  unfold setTime_claim cmd_set_time
  by_cases h : validTimeFormat raw = true
  · rw [if_pos h]
    exact ⟨⟨fun _ => h, fun _ => rfl⟩, fun hfalse => absurd h (by rw [hfalse]; exact Bool.false_ne_true)⟩
  · rw [if_neg h]
    exact ⟨⟨fun habs => absurd habs (by exact Bool.false_ne_true), fun hv => absurd hv h⟩,
           fun _ => rfl⟩

/-- Witness for C9 at the rejected input 25:00. -/
theorem cmd_set_time_validation_witness : setTime_claim exDbC8 7 "25:00" :=
  cmd_set_time_validation exDbC8 7 "25:00"

/-- C8: the Settings record carries an optional reminder time-of-day
(the reminder_time field), and the set-reminder-time operation on a valid
24-hour HH:MM input persists that value into the Settings row of the
group. -/
theorem cmd_set_reminder_time_persists (db : DB) (g : Int) (raw : String)
    (hvalid : validTimeFormat raw = true)
    (hset : ∃ s ∈ db.settings, s.group_id = g) :
    setReminderTime_claim db g raw := by
  unfold setReminderTime_claim cmd_set_reminder_time
  rw [if_pos hvalid]
  refine ⟨rfl, ?_, ?_⟩
  · intro s hs hsg
    simp only [set_reminder_time, List.mem_map] at hs
    obtain ⟨s0, _, rfl⟩ := hs
    by_cases h0 : s0.group_id == g
    · rw [if_pos h0]
    · rw [if_neg h0] at hsg ⊢
      exact absurd hsg (by simpa using h0)
  · obtain ⟨s0, hs0, hg0⟩ := hset
    refine ⟨{ s0 with reminder_time := some raw }, ?_, hg0, rfl⟩
    simp only [set_reminder_time, List.mem_map]
    exact ⟨s0, hs0, by rw [if_pos (by simpa using hg0)]⟩

/-- Witness for C8 at the valid input 22:00. -/
theorem cmd_set_reminder_time_persists_witness :
    validTimeFormat "22:00" = true ∧
    (∃ s ∈ exDbC8.settings, s.group_id = 7) ∧
    setReminderTime_claim exDbC8 7 "22:00" :=
  ⟨by decide, by decide,
   cmd_set_reminder_time_persists exDbC8 7 "22:00" (by decide) (by decide)⟩

/-- C7: the leaderboard contains exactly the aggregate rows of the
currently-active participants of the group, ordered by yes-count
descending and then display name ascending case-insensitively; on the
example data with A = Zoe (3 yes), B = Amy (3 yes), C = Cal (2 yes) the
order is [B, A, C]. -/
theorem leaderboard_members_and_order (db : DB) (g : Int) (ws we : String) :
    leaderboard_claim db g ws we := by
  unfold leaderboard_claim
  refine ⟨?_, List.sorted_insertionSort lb_order _, by decide⟩
  intro r
  rw [get_weekly_leaderboard, List.mem_insertionSort, List.mem_map]
  constructor
  · rintro ⟨p, hp, rfl⟩
    rw [List.mem_filter] at hp
    have hcond := hp.2
    simp only [Bool.and_eq_true, beq_iff_eq] at hcond
    exact ⟨p, hp.1, hcond.1, hcond.2, rfl⟩
  · rintro ⟨p, hp, hg, ha, rfl⟩
    exact ⟨p, List.mem_filter.2 ⟨hp, by simp [hg, ha]⟩, rfl⟩

/-!  Weekly finalize machinery for C3 and C4. -/

/-- If no weekly row for (g, ws) exists at all, then none exists for any
participant key either. -/
theorem no_weekly_rows_of_check (db : DB) (g : Int) (ws : String)
    (hchk : check_weekly_result_exists db g ws = false) :
    ∀ pid, db.weekly_results.any (weekly_key g pid ws) = false := by
  intro pid
  rw [List.any_eq_false]
  intro r hr h2
  have h1 := List.any_eq_false.1 hchk r hr
  apply h1
  simp only [weekly_key, Bool.and_eq_true, beq_iff_eq] at h2
  simp [h2.1.1, h2.2]

/-- The snapshot loop appends exactly the expected rows when no row of
the period exists yet and the participant ids are distinct. -/
theorem insert_weekly_rows_spec (g : Int) (ws : String) (n : Nat) :
    ∀ (rows : List LBRow) (i : Nat) (db : DB),
      (∀ p ∈ rows, db.weekly_results.any (weekly_key g p.pid ws) = false) →
      ((rows.map (fun r => r.pid)).Nodup) →
      (insert_weekly_rows g ws n i rows db).weekly_results =
        db.weekly_results ++ expected_weekly_rows g ws n i rows := by
  intro rows
  induction rows with
  | nil =>
      intro i db _ _
      simp [insert_weekly_rows, expected_weekly_rows]
  | cons p rest ih =>
      intro i db hno hnd
      have hnop : db.weekly_results.any (weekly_key g p.pid ws) = false :=
        hno p (List.mem_cons_self p rest)
      have hins : insert_weekly_result db g p.pid ws p.yes_count p.no_count
          p.missed_count (pyRound2_x100 (p.yes_count * 100) n) (i + 1) =
          { db with weekly_results := db.weekly_results ++ [mkWeeklyRow g ws n i p] } := by
        rw [insert_weekly_result, if_neg (by rw [hnop]; exact Bool.false_ne_true)]
        rfl
      rw [List.map_cons, List.nodup_cons] at hnd
      have hno2 : ∀ q ∈ rest,
          ({ db with weekly_results := db.weekly_results ++ [mkWeeklyRow g ws n i p] } :
            DB).weekly_results.any (weekly_key g q.pid ws) = false := by
        intro q hq
        show (db.weekly_results ++ [mkWeeklyRow g ws n i p]).any (weekly_key g q.pid ws)
          = false
        rw [List.any_append]
        have h1 := hno q (List.mem_cons_of_mem p hq)
        have hpq : p.pid ≠ q.pid := by
          intro h
          exact hnd.1 (by rw [h]; exact List.mem_map_of_mem (fun r => r.pid) hq)
        have h2 : ([mkWeeklyRow g ws n i p].any (weekly_key g q.pid ws)) = false := by
          simp [weekly_key, mkWeeklyRow, hpq]
        rw [h1, h2]
        rfl
      have hstep := ih (i + 1)
        ({ db with weekly_results := db.weekly_results ++ [mkWeeklyRow g ws n i p] })
        hno2 hnd.2
      show (insert_weekly_rows g ws n (i + 1) rest
          (insert_weekly_result db g p.pid ws p.yes_count p.no_count p.missed_count
            (pyRound2_x100 (p.yes_count * 100) n) (i + 1))).weekly_results =
        db.weekly_results ++ expected_weekly_rows g ws n i (p :: rest)
      rw [hins, hstep]
      show db.weekly_results ++ [mkWeeklyRow g ws n i p] ++
          expected_weekly_rows g ws n (i + 1) rest =
        db.weekly_results ++ (mkWeeklyRow g ws n i p :: expected_weekly_rows g ws n (i + 1) rest)
      rw [List.append_assoc]
      rfl

/-- The state after one scheduled run that passed the idempotency guard
is the state of the snapshot loop. -/
theorem post_weekly_sched_fst (db : DB) (g : Int) (ws we : String) (n : Nat)
    (hchk : check_weekly_result_exists db g ws = false) :
    (post_weekly_summary db g ws we n false).1 =
      insert_weekly_rows g ws n 0 (get_weekly_leaderboard db g ws we) db := by
  rw [post_weekly_summary, hchk]
  by_cases h : (get_weekly_leaderboard db g ws we).isEmpty
  · have hnil : get_weekly_leaderboard db g ws we = [] := by
      rwa [← List.isEmpty_iff]
    simp [h, hnil, insert_weekly_rows]
  · simp [h]

/-- Amended C4: every weekly_results row persisted by the scheduled run
stores as completion rate the two-decimal rounding of
yes / period_length * 100 (a percentage, kept in hundredths), together
with the leaderboard counts and the rank position; the whole run appends
exactly those rows. -/
theorem weeklySnapshot_rate_formula (db : DB) (g : Int) (ws we : String) (n : Nat)
    (hchk : check_weekly_result_exists db g ws = false)
    (hnd : ((get_weekly_leaderboard db g ws we).map (fun r => r.pid)).Nodup) :
    weeklySnapshot_claim db g ws we n := by
  unfold weeklySnapshot_claim
  rw [post_weekly_sched_fst db g ws we n hchk]
  exact insert_weekly_rows_spec g ws n (get_weekly_leaderboard db g ws we) 0 db
    (fun p _ => no_weekly_rows_of_check db g ws hchk p.pid) hnd

/-- Witness for the amended C4 at the concrete three-yes week: the single
persisted row carries completion rate 42.86 expressed as 4286. -/
theorem weeklySnapshot_rate_formula_witness :
    check_weekly_result_exists exDbC4 100 "2024-03-04" = false ∧
    ((get_weekly_leaderboard exDbC4 100 "2024-03-04" "2024-03-10").map
        (fun r => r.pid)).Nodup ∧
    weeklySnapshot_claim exDbC4 100 "2024-03-04" "2024-03-10" 7 :=
  ⟨by decide, by decide,
   weeklySnapshot_rate_formula exDbC4 100 "2024-03-04" "2024-03-10" 7
     (by decide) (by decide)⟩

/-- Counterexample to C4 as stated: with three yes days over a seven-day
week the stored rate is 42.86 (4286 hundredths), not
round(3 / 7, 2) = 0.43 (43 hundredths): the code stores a percentage,
the claim omits the factor 100. -/
theorem completion_rate_counterexample :
    ((post_weekly_summary exDbC4 100 "2024-03-04" "2024-03-10" 7 false).1.weekly_results.map
        (fun r => (r.total_yes, r.completion_rate_x100))) = [(3, 4286)] ∧
    pyRound2_x100 3 7 = 43 ∧ (43 : Nat) ≠ 4286 :=
  ⟨by decide, by decide, by decide⟩

/-- Amended C3: when the scheduled run has finalized a period (from a
state where nothing was finalized and the leaderboard is nonempty), a
second scheduled run changes no stored state and returns immediately
with the already-posted outcome: nothing is recomputed into the store
and nothing is re-published, and the rows stored by the first run keep
their rank assignments. -/
theorem finalize_rerun_idempotent (db : DB) (g : Int) (ws we : String) (n : Nat)
    (hchk : check_weekly_result_exists db g ws = false)
    (hnd : ((get_weekly_leaderboard db g ws we).map (fun r => r.pid)).Nodup)
    (hne : get_weekly_leaderboard db g ws we ≠ []) :
    finalize_rerun_claim db g ws we n := by
  have h1 := post_weekly_sched_fst db g ws we n hchk
  have hrows := insert_weekly_rows_spec g ws n (get_weekly_leaderboard db g ws we) 0 db
    (fun p _ => no_weekly_rows_of_check db g ws hchk p.pid) hnd
  have hcheck2 : check_weekly_result_exists
      (post_weekly_summary db g ws we n false).1 g ws = true := by
    rw [check_weekly_result_exists, List.any_eq_true]
    obtain ⟨p, rest, hrw⟩ : ∃ p rest, get_weekly_leaderboard db g ws we = p :: rest := by
      cases hlb : get_weekly_leaderboard db g ws we with
      | nil => exact absurd hlb hne
      | cons p rest => exact ⟨p, rest, rfl⟩
    refine ⟨mkWeeklyRow g ws n 0 p, ?_, by simp [mkWeeklyRow]⟩
    rw [h1, hrows, hrw]
    exact List.mem_append_right _ (List.mem_cons_self _ _)
  have h2 : post_weekly_summary (post_weekly_summary db g ws we n false).1 g ws we n false =
      ((post_weekly_summary db g ws we n false).1, SummaryOutcome.alreadyPosted) := by
    rw [post_weekly_summary, hcheck2]
    rfl
  exact ⟨by rw [h2], by rw [h2]⟩

/-- Witness for the amended C3 at the concrete three-yes week. -/
theorem finalize_rerun_idempotent_witness :
    check_weekly_result_exists exDbC4 100 "2024-03-04" = false ∧
    ((get_weekly_leaderboard exDbC4 100 "2024-03-04" "2024-03-10").map
        (fun r => r.pid)).Nodup ∧
    get_weekly_leaderboard exDbC4 100 "2024-03-04" "2024-03-10" ≠ [] ∧
    finalize_rerun_claim exDbC4 100 "2024-03-04" "2024-03-10" 7 :=
  ⟨by decide, by decide, by decide,
   finalize_rerun_idempotent exDbC4 100 "2024-03-04" "2024-03-10" 7
     (by decide) (by decide) (by decide)⟩

/-- Counterexample to C3 as stated: on an already-finalized period the
second call does not return the previously stored rows; it returns the
already-posted early exit carrying no rows at all. -/
theorem finalize_rerun_counterexample :
    ¬∃ rows, (post_weekly_summary exDbC3 200 "2024-03-04" "2024-03-10" 7 false).2 =
      SummaryOutcome.posted rows := by
  intro h
  obtain ⟨rows, h⟩ := h
  have h0 : (post_weekly_summary exDbC3 200 "2024-03-04" "2024-03-10" 7 false).2 =
      SummaryOutcome.alreadyPosted := by decide
  rw [h0] at h
  exact SummaryOutcome.noConfusion h

/-!  Pending-alias resolution machinery for C6. -/

/-- get_or_create_group never touches the participants table. -/
theorem get_or_create_group_participants (db : DB) (c : Int) (t : String) :
    (get_or_create_group db c t).participants = db.participants := by
  unfold get_or_create_group
  split <;> dsimp only <;> split <;> rfl

/-- Case-insensitive alias matching only depends on the folded alias. -/
theorem usernameMatches_congr (p : ParticipantRow) (u u2 : String)
    (h : asciiLower u2 = asciiLower u) :
    usernameMatches p u2 = usernameMatches p u := by
  unfold usernameMatches
  cases p.username with
  | none => rfl
  | some v => rw [h]

/-- C6: a pending-alias enrollment followed by any inbound group message
carrying the alias (up to ASCII case) and a known identity leaves the
participant row active with pending cleared and user_ref bound to the
identity of the activity, and creates no additional Participant row. -/
theorem pending_alias_resolution (db : DB) (g : Int) (u u2 : String) (uid : Int)
    (dn title : String)
    (hmatch : asciiLower u2 = asciiLower u)
    (hnou : ∀ p ∈ db.participants, ¬(p.group_id = g ∧ usernameMatches p u = true))
    (hbound : ∀ p ∈ db.participants, p.id < db.next_participant_id) :
    pendingResolution_claim db g u u2 uid dn title := by
  have hfind : get_participant_by_username db g u = none := by
    rw [get_participant_by_username, List.find?_eq_none]
    intro p hp hcond
    simp only [Bool.and_eq_true, beq_iff_eq] at hcond
    exact hnou p hp ⟨hcond.1, hcond.2⟩
  have hadd : add_pending_participant db g u =
      (db.next_participant_id,
       { db with
           participants := db.participants ++
             [⟨db.next_participant_id, g, none, some u, u, true, true⟩],
           next_participant_id := db.next_participant_id + 1 }) := by
    rw [add_pending_participant, hfind]
  unfold pendingResolution_claim
  rw [hadd]
  set newRow : ParticipantRow := ⟨db.next_participant_id, g, none, some u, u, true, true⟩
    with hnewRow
  set db1 : DB :=
    { db with participants := db.participants ++ [newRow],
              next_participant_id := db.next_participant_id + 1 } with hdb1
  have hparts1 : db1.participants = db.participants ++ [newRow] := rfl
  set db2 : DB := get_or_create_group db1 g title with hdb2
  have hparts2 : db2.participants = db.participants ++ [newRow] :=
    (get_or_create_group_participants db1 g title).trans hparts1
  have hqnew : (newRow.group_id == g && usernameMatches newRow u2 &&
      newRow.user_id == none && newRow.pending) = true := by
    have hm : usernameMatches newRow u2 = true := by
      show (asciiLower u == asciiLower u2) = true
      rw [beq_iff_eq, hmatch]
    simp [hnewRow, hm]
  have hqold : ∀ p ∈ db.participants,
      ¬(p.group_id == g && usernameMatches p u2 &&
        p.user_id == none && p.pending) = true := by
    intro p hp hcond
    simp only [Bool.and_eq_true, beq_iff_eq] at hcond
    have hm2 : usernameMatches p u = true := by
      rw [← usernameMatches_congr p u u2 hmatch]
      exact hcond.1.1.2
    exact hnou p hp ⟨hcond.1.1.1, hm2⟩
  have hfind2 : db2.participants.find? (fun p =>
      p.group_id == g && usernameMatches p u2 &&
      p.user_id == none && p.pending) = some newRow := by
    rw [hparts2, List.find?_append]
    have hl : db.participants.find? (fun p =>
        p.group_id == g && usernameMatches p u2 &&
        p.user_id == none && p.pending) = none := by
      rw [List.find?_eq_none]
      exact hqold
    rw [hl]
    have hm : usernameMatches newRow u2 = true := by
      show (asciiLower u == asciiLower u2) = true
      rw [beq_iff_eq, hmatch]
    simp [List.find?, hqnew, hm]
  have hres : resolve_pending_by_username db2 g u2 uid dn =
      (true, { db2 with participants := db2.participants.map (fun p =>
        if p.id == newRow.id then
          { p with user_id := some uid, display_name := dn, pending := false }
        else p) }) := by
    rw [resolve_pending_by_username, hfind2]
  have hmw : middleware_on_message db1 g title (some (uid, some u2, dn)) =
      { db2 with participants := db2.participants.map (fun p =>
        if p.id == newRow.id then
          { p with user_id := some uid, display_name := dn, pending := false }
        else p) } := by
    show (resolve_pending_by_username (get_or_create_group db1 g title) g u2 uid dn).2 = _
    rw [← hdb2, hres]
  rw [hmw]
  have hmap : db2.participants.map (fun p =>
      if p.id == newRow.id then
        { p with user_id := some uid, display_name := dn, pending := false }
      else p) =
      db.participants ++ [⟨db.next_participant_id, g, some uid, some u, dn, true, false⟩] := by
    rw [hparts2, List.map_append]
    have hold : db.participants.map (fun p =>
        if p.id == newRow.id then
          { p with user_id := some uid, display_name := dn, pending := false }
        else p) = db.participants := by
      conv_rhs => rw [← List.map_id db.participants]
      apply List.map_congr_left
      intro p hp
      have : p.id ≠ newRow.id := Nat.ne_of_lt (hbound p hp)
      rw [if_neg (by simpa using this)]
      rfl
    rw [hold]
    have hnew : [newRow].map (fun p =>
        if p.id == newRow.id then
          { p with user_id := some uid, display_name := dn, pending := false }
        else p) = [⟨db.next_participant_id, g, some uid, some u, dn, true, false⟩] := by
      simp [hnewRow]
    rw [hnew]
  rw [hmap]
  constructor
  · show (db.participants ++ [_] : List ParticipantRow).length =
      (db.participants ++ [newRow]).length
    simp
  · rw [List.filter_append]
    have hfold : db.participants.filter (fun p =>
        p.group_id == g && usernameMatches p u2) = [] := by
      rw [List.filter_eq_nil_iff]
      intro p hp hcond
      simp only [Bool.and_eq_true, beq_iff_eq] at hcond
      have hm2 : usernameMatches p u = true := by
        rw [← usernameMatches_congr p u u2 hmatch]
        exact hcond.2
      exact hnou p hp ⟨hcond.1, hm2⟩
    rw [hfold, List.nil_append]
    have : usernameMatches
        (⟨db.next_participant_id, g, some uid, some u, dn, true, false⟩ : ParticipantRow)
        u2 = true := by
      show (asciiLower u == asciiLower u2) = true
      rw [beq_iff_eq, hmatch]
    simp [this]

/-- Witness for C6 mirroring the spec scenario: alias alice enrolled
pending in group 100, then activity from identity 555 carrying the alias
Alice (different case) resolves it. -/
theorem pending_alias_resolution_witness :
    asciiLower "Alice" = asciiLower "alice" ∧
    (∀ p ∈ exDbC6.participants, ¬(p.group_id = 100 ∧ usernameMatches p "alice" = true)) ∧
    (∀ p ∈ exDbC6.participants, p.id < exDbC6.next_participant_id) ∧
    pendingResolution_claim exDbC6 100 "alice" "Alice" 555 "AliceW" "G" :=
  ⟨by decide, by decide, by decide,
   pending_alias_resolution exDbC6 100 "alice" "Alice" 555 "AliceW" "G"
     (by decide) (by decide) (by decide)⟩

/-!  Daily snapshot machinery for C2. -/

/-- upsert_daily_result touches only the daily_results table. -/
theorem upsert_daily_result_frame (db : DB) (g : Int) (pid : Nat) (d st : String) :
    (upsert_daily_result db g pid d st).votes = db.votes ∧
    (upsert_daily_result db g pid d st).polls = db.polls ∧
    (upsert_daily_result db g pid d st).participants = db.participants := by
  unfold upsert_daily_result
  split <;> exact ⟨rfl, rfl, rfl⟩

/-- A status-only update preserves every daily key. -/
theorem daily_key_update (g2 : Int) (pid2 : Nat) (d2 st : String) (r : DailyResultRow) :
    daily_key g2 pid2 d2 { r with status := st } = daily_key g2 pid2 d2 r :=
  rfl

/-- Key filter after upserting the same key: the single fresh row. -/
theorem upsert_daily_result_filter_self (db : DB) (g : Int) (pid : Nat) (d st : String)
    (hu : dailyKeyUnique db.daily_results) :
    (upsert_daily_result db g pid d st).daily_results.filter (daily_key g pid d) =
      [⟨g, pid, d, st⟩] := by
  rcases filter_key_nil_or_singleton (daily_key g pid d)
      (fun r => (r.group_id, r.participant_id, r.result_date)) (g, pid, d)
      (daily_key_iff g pid d) db.daily_results hu with hnil | ⟨r, hr, hk⟩
  · have hany : db.daily_results.any (daily_key g pid d) = false := by
      rw [List.any_eq_false]
      exact List.filter_eq_nil_iff.1 hnil
    rw [upsert_daily_result, if_neg (by rw [hany]; exact Bool.false_ne_true)]
    show (db.daily_results ++ [(⟨g, pid, d, st⟩ : DailyResultRow)]).filter
        (daily_key g pid d) = [(⟨g, pid, d, st⟩ : DailyResultRow)]
    rw [List.filter_append, hnil, List.nil_append]
    simp [daily_key]
  · have hrmem : r ∈ db.daily_results.filter (daily_key g pid d) := by
      rw [hr]; exact List.mem_singleton.2 rfl
    have hkr : daily_key g pid d r = true := List.of_mem_filter hrmem
    have hany : db.daily_results.any (daily_key g pid d) = true := by
      rw [List.any_eq_true]
      exact ⟨r, List.mem_of_mem_filter hrmem, hkr⟩
    rw [upsert_daily_result, if_pos hany]
    show ((db.daily_results.map fun x =>
        if daily_key g pid d x then { x with status := st } else x)).filter
        (daily_key g pid d) = [(⟨g, pid, d, st⟩ : DailyResultRow)]
    rw [List.map_filter]
    have hcomp : db.daily_results.filter ((daily_key g pid d) ∘ fun x =>
        if daily_key g pid d x then { x with status := st } else x) =
        db.daily_results.filter (daily_key g pid d) := by
      apply List.filter_congr
      intro x _
      simp only [Function.comp_apply]
      by_cases h : daily_key g pid d x = true
      · rw [if_pos h, daily_key_update]
      · rw [if_neg h]
    rw [hcomp, hr, List.map_singleton, if_pos hkr]
    simp only [Prod.mk.injEq] at hk
    obtain ⟨hk1, hk2, hk3⟩ := hk
    cases r
    simp_all

/-- Key filter after upserting a different participant key is
unchanged. -/
theorem upsert_daily_result_filter_other (db : DB) (g : Int) (pid : Nat)
    (d st : String) (pid2 : Nat) (hne : pid2 ≠ pid) :
    (upsert_daily_result db g pid d st).daily_results.filter (daily_key g pid2 d) =
      db.daily_results.filter (daily_key g pid2 d) := by
  rw [upsert_daily_result]
  by_cases hany : db.daily_results.any (daily_key g pid d) = true
  · rw [if_pos hany]
    show ((db.daily_results.map fun x =>
        if daily_key g pid d x then { x with status := st } else x)).filter
        (daily_key g pid2 d) = db.daily_results.filter (daily_key g pid2 d)
    rw [List.map_filter]
    have hcomp : db.daily_results.filter ((daily_key g pid2 d) ∘ fun x =>
        if daily_key g pid d x then { x with status := st } else x) =
        db.daily_results.filter (daily_key g pid2 d) := by
      apply List.filter_congr
      intro x _
      simp only [Function.comp_apply]
      by_cases h : daily_key g pid d x = true
      · rw [if_pos h, daily_key_update]
      · rw [if_neg h]
    rw [hcomp]
    conv_rhs => rw [← List.map_id (db.daily_results.filter (daily_key g pid2 d))]
    apply List.map_congr_left
    intro x hx
    have hx2 : daily_key g pid2 d x = true := List.of_mem_filter hx
    have : ¬daily_key g pid d x = true := by
      intro hx1
      rw [daily_key_iff] at hx1 hx2
      rw [Prod.mk.injEq, Prod.mk.injEq] at hx1 hx2
      exact hne (hx2.2.1.symm.trans hx1.2.1)
    rw [if_neg this]
    rfl
  · rw [if_neg hany]
    show (db.daily_results ++ [(⟨g, pid, d, st⟩ : DailyResultRow)]).filter
        (daily_key g pid2 d) = db.daily_results.filter (daily_key g pid2 d)
    rw [List.filter_append]
    have : ([(⟨g, pid, d, st⟩ : DailyResultRow)].filter (daily_key g pid2 d)) = [] := by
      have hne2 : ¬pid = pid2 := fun h => hne h.symm
      simp [daily_key, hne2]
    rw [this, List.append_nil]

/-- upsert_daily_result preserves key-uniqueness of daily_results. -/
theorem upsert_daily_result_keyUnique (db : DB) (g : Int) (pid : Nat) (d st : String)
    (hu : dailyKeyUnique db.daily_results) :
    dailyKeyUnique (upsert_daily_result db g pid d st).daily_results := by
  unfold dailyKeyUnique at hu ⊢
  rw [upsert_daily_result]
  by_cases hany : db.daily_results.any (daily_key g pid d) = true
  · rw [if_pos hany]
    show ((db.daily_results.map fun x =>
        if daily_key g pid d x then { x with status := st } else x)).map
        (fun r => (r.group_id, r.participant_id, r.result_date)) |>.Nodup
    rw [List.map_map]
    have : db.daily_results.map
        ((fun r : DailyResultRow => (r.group_id, r.participant_id, r.result_date)) ∘
          fun x => if daily_key g pid d x then { x with status := st } else x) =
        db.daily_results.map (fun r => (r.group_id, r.participant_id, r.result_date)) := by
      apply List.map_congr_left
      intro x _
      simp only [Function.comp_apply]
      by_cases h : daily_key g pid d x = true
      · rw [if_pos h]
      · rw [if_neg h]
    rw [this]
    exact hu
  · rw [if_neg hany]
    show ((db.daily_results ++ [(⟨g, pid, d, st⟩ : DailyResultRow)]).map
        fun r => (r.group_id, r.participant_id, r.result_date)).Nodup
    rw [List.map_append, List.map_singleton, List.nodup_append]
    refine ⟨hu, List.nodup_singleton _, ?_⟩
    intro x hx hx1
    rw [List.mem_singleton] at hx1
    rw [List.mem_map] at hx
    obtain ⟨r, hrmem, rfl⟩ := hx
    have : daily_key g pid d r = true := by
      rw [daily_key_iff]
      exact hx1
    exact absurd (List.any_eq_true.2 ⟨r, hrmem, this⟩) (by simpa using hany)

/-- snapshot_status reads the state only through the votes table. -/
theorem snapshot_status_votes_eq (d db0 : DB) (h : d.votes = db0.votes)
    (poll : Option PollRow) (p : ParticipantRow) :
    snapshot_status d poll p = snapshot_status db0 poll p := by
  unfold snapshot_status get_vote
  rw [h]

/-- Folding the snapshot step over participants whose ids all differ from
pid leaves the key filter for pid untouched. -/
theorem snapshot_fold_preserves (g : Int) (today : String) (poll : Option PollRow)
    (pid : Nat) :
    ∀ (ps : List ParticipantRow) (d : DB),
      (∀ q ∈ ps, q.id ≠ pid) →
      ((ps.foldl (fun d q =>
          upsert_daily_result d g q.id today (snapshot_status d poll q)) d).daily_results.filter
        (daily_key g pid today)) =
        d.daily_results.filter (daily_key g pid today) := by
  intro ps
  induction ps with
  | nil => intro d _; rfl
  | cons q ps ih =>
      intro d hne
      have h1 := ih (upsert_daily_result d g q.id today (snapshot_status d poll q))
        (fun r hr => hne r (List.mem_cons_of_mem q hr))
      have h2 := upsert_daily_result_filter_other d g q.id today
        (snapshot_status d poll q) pid
        (fun h => hne q (List.mem_cons_self q ps) h.symm)
      exact h1.trans h2

/-- Core induction for C2: folding the snapshot step from a state whose
votes agree with db0 and whose daily keys are unique writes for each
listed participant exactly the row carrying the status computed against
db0. -/
theorem snapshot_fold_spec (g : Int) (today : String) (poll : Option PollRow)
    (db0 : DB) :
    ∀ (ps : List ParticipantRow) (d : DB),
      d.votes = db0.votes →
      dailyKeyUnique d.daily_results →
      ((ps.map (fun q => q.id)).Nodup) →
      ∀ p ∈ ps,
        ((ps.foldl (fun d q =>
            upsert_daily_result d g q.id today (snapshot_status d poll q)) d).daily_results.filter
          (daily_key g p.id today)) =
          [⟨g, p.id, today, snapshot_status db0 poll p⟩] := by
  intro ps
  induction ps with
  | nil => intro d _ _ _ p hp; exact absurd hp (List.not_mem_nil p)
  | cons q ps ih =>
      intro d hv hu hnd p hp
      rw [List.map_cons, List.nodup_cons] at hnd
      have hst : snapshot_status d poll q = snapshot_status db0 poll q :=
        snapshot_status_votes_eq d db0 hv poll q
      have hv1 : (upsert_daily_result d g q.id today
          (snapshot_status d poll q)).votes = db0.votes :=
        (upsert_daily_result_frame d g q.id today (snapshot_status d poll q)).1.trans hv
      have hu1 := upsert_daily_result_keyUnique d g q.id today
        (snapshot_status d poll q) hu
      rcases List.mem_cons.1 hp with rfl | hmem
      · have hpres := snapshot_fold_preserves g today poll p.id ps
          (upsert_daily_result d g p.id today (snapshot_status d poll p))
          (fun r hr h => hnd.1 (by rw [← h]; exact List.mem_map_of_mem (fun x => x.id) hr))
        have hself := upsert_daily_result_filter_self d g p.id today
          (snapshot_status d poll p) hu
        show ((ps.foldl (fun d q =>
            upsert_daily_result d g q.id today (snapshot_status d poll q))
            (upsert_daily_result d g p.id today
              (snapshot_status d poll p))).daily_results.filter
          (daily_key g p.id today)) = [⟨g, p.id, today, snapshot_status db0 poll p⟩]
        rw [hpres, hself, hst]
      · exact ih (upsert_daily_result d g q.id today (snapshot_status d poll q))
          hv1 hu1 hnd.2 p hmem

/-- The snapshot status is missed exactly under the missed conditions of
the claim, else yes for option index 0 and no otherwise. -/
theorem snapshot_status_cases (db : DB) (g : Int) (today : String) (p : ParticipantRow) :
    snapshot_status db (get_poll_by_date db g today) p =
      (if daily_missed_cond db g today p then "missed"
       else if voteOption db g today p == some 0 then "yes" else "no") := by
  unfold snapshot_status daily_missed_cond voteOption
  cases hpu : p.user_id with
  | none => simp [uid_falsy]
  | some v =>
      by_cases hv : v = 0
      · subst hv
        simp [uid_falsy]
      · have huf : uid_falsy (some v) = false := by simp [uid_falsy, hv]
        rw [huf]
        cases hpoll : get_poll_by_date db g today with
        | none => simp [poll_unpublished]
        | some pl =>
            by_cases hunp : poll_unpublished (some pl) = true
            · simp [hunp]
            · have hunp2 : poll_unpublished (some pl) = false :=
                Bool.eq_false_iff.2 hunp
              rw [hunp2]
              cases hv2 : get_vote db pl.id v with
              | none => simp [hv2]
              | some vr =>
                  cases ho : vr.option_idx with
                  | none => simp [hv2, ho]
                  | some k =>
                      cases k with
                      | zero => simp [hv2, ho]
                      | succ k2 => simp [hv2, ho]

/-- C2: for every active participant of the group, the snapshot writes
exactly one Daily Result row for the day, whose status is missed when
the identity is unknown, no published ballot exists, no response was
recorded, or the last recorded response is a retraction; otherwise yes
when the recorded option is index 0 and no otherwise. -/
theorem snapshotDay_status (db : DB) (g : Int) (today : String) (p : ParticipantRow)
    (hdaily : dailyKeyUnique db.daily_results)
    (hids : (db.participants.map (fun q => q.id)).Nodup)
    (hp : p ∈ get_active_participants db g) :
    snapshotDay_claim db g today p := by
  have hnd : ((get_active_participants db g).map (fun q => q.id)).Nodup := by
    have hperm : List.Perm (get_active_participants db g)
        (db.participants.filter (fun q => q.group_id == g && q.active)) :=
      List.perm_insertionSort _ _
    have hfil : ((db.participants.filter
        (fun q => q.group_id == g && q.active)).map (fun q => q.id)).Nodup :=
      List.Nodup.sublist (List.Sublist.map _ (List.filter_sublist _)) hids
    exact ((hperm.map (fun q => q.id)).nodup_iff).2 hfil
  constructor
  · exact snapshot_fold_spec g today (get_poll_by_date db g today) db
      (get_active_participants db g) db rfl hdaily hnd p hp
  · exact snapshot_status_cases db g today p

/-- Witness for C2 on the retraction scenario of the spec: identity 555
answers yes to the 2024-03-04 ballot and retracts before day-end; the
snapshot stores status missed, not yes. -/
theorem snapshotDay_status_witness :
    dailyKeyUnique exDbC2.daily_results ∧
    (exDbC2.participants.map (fun q => q.id)).Nodup ∧
    exC2row ∈ get_active_participants exDbC2 100 ∧
    snapshotDay_claim exDbC2 100 "2024-03-04" exC2row ∧
    voteOption exDbC2 100 "2024-03-04" exC2row = none ∧
    snapshot_status exDbC2 (get_poll_by_date exDbC2 100 "2024-03-04") exC2row = "missed" :=
  ⟨by decide, by decide, by decide,
   snapshotDay_status exDbC2 100 "2024-03-04" exC2row (by decide) (by decide) (by decide),
   by decide, by decide⟩
